import Mathlib

/-!
Verification development for the Pantheon Elite council trading engine.

The repository's core backend (consensus resolver, trade executor, portfolio
ledger, cycle coordinator, scheduler daemon) is exercised here through a
shallow embedding.  The Python services under app/backend are not part of the
checked-out sources, so those components are modelled from the specification
(each such definition carries a doc comment starting with
`Modelled from the spec:`).  The orchestrator lifecycle scripts
(scripts/test_orchestrator.sh start guard, scripts/stop_orchestrator.sh) and
the frontend CouncilWebSocketProvider (src/unnamed/part_016) are embedded
directly from their sources.
-/

namespace Pantheon

/-! ## Consensus Resolver -/

/-- Trading signal emitted by an agent (buy | sell | hold | close). -/
inductive Signal
  | buy
  | sell
  | hold
  | close
deriving DecidableEq

/-- Modelled from the spec: an AgentDebateMessage carries agent name, symbol,
signal, confidence in 0..1, and whether the agent abstained (timed out or
errored).  Agent names and symbols are abstracted to naturals. -/
structure AgentDebateMessage where
  agent : Nat
  symbol : Nat
  signal : Signal
  confidence : ℚ
  abstained : Bool
deriving DecidableEq

/-- Modelled from the spec: the non-abstaining votes of a message set. -/
def votesOf (msgs : List AgentDebateMessage) : List AgentDebateMessage :=
  msgs.filter (fun m => !m.abstained)

/-- Modelled from the spec: summed confidence of the non-abstaining votes for
one signal type. -/
def voteWeight (msgs : List AgentDebateMessage) (s : Signal) : ℚ :=
  (((votesOf msgs).filter (fun m => m.signal = s)).map (fun m => m.confidence)).sum

/-- Modelled from the spec: the total possible weight is one unit per
non-abstaining vote — abstaining agents are excluded from the denominator. -/
def totalPossibleWeight (msgs : List AgentDebateMessage) : ℚ :=
  ((votesOf msgs).length : ℚ)

/-- Modelled from the spec: weight each non-abstaining vote by its confidence,
group by signal type; the decision is the signal type with strictly highest
summed confidence provided that sum exceeds threshold * total possible weight,
otherwise hold; an exact tie resolves to hold. -/
def resolve (msgs : List AgentDebateMessage) (threshold : ℚ) : Signal :=
  let w := voteWeight msgs
  let total := totalPossibleWeight msgs
  if w .buy > w .sell ∧ w .buy > w .hold ∧ w .buy > w .close then
    if w .buy > threshold * total then .buy else .hold
  else if w .sell > w .buy ∧ w .sell > w .hold ∧ w .sell > w .close then
    if w .sell > threshold * total then .sell else .hold
  else if w .close > w .buy ∧ w .close > w .sell ∧ w .close > w .hold then
    if w .close > threshold * total then .close else .hold
  else .hold

/-- The three-agent tie scenario from the spec: buy(0.4), sell(0.4),
hold(0.2), nobody abstaining. -/
def tieScenario : List AgentDebateMessage :=
  [⟨0, 0, .buy, mkRat 2 5, false⟩, ⟨1, 0, .sell, mkRat 2 5, false⟩,
   ⟨2, 0, .hold, mkRat 1 5, false⟩]

/-- A two-agent scenario voting buy(0.6) and buy(0.5). -/
def buyScenario : List AgentDebateMessage :=
  [⟨0, 0, .buy, mkRat 3 5, false⟩, ⟨1, 0, .buy, mkRat 1 2, false⟩]

theorem resolve_eq_of_strict_max (msgs : List AgentDebateMessage) (t : ℚ)
    (s : Signal) (hs : s ≠ Signal.hold)
    (hmax : ∀ u, u ≠ s → voteWeight msgs u < voteWeight msgs s)
    (hthr : t * totalPossibleWeight msgs < voteWeight msgs s) :
    resolve msgs t = s := by
  cases s with
  | hold => exact absurd rfl hs
  | buy =>
    have h1 := hmax .sell (by simp)
    have h2 := hmax .hold (by simp)
    have h3 := hmax .close (by simp)
    simp only [resolve]
    rw [if_pos ⟨h1, h2, h3⟩, if_pos hthr]
  | sell =>
    have h1 := hmax .buy (by simp)
    have h2 := hmax .hold (by simp)
    have h3 := hmax .close (by simp)
    simp only [resolve]
    rw [if_neg (fun hc => absurd hc.1 (not_lt.mpr (le_of_lt h1))),
      if_pos ⟨h1, h2, h3⟩, if_pos hthr]
  | close =>
    have h1 := hmax .buy (by simp)
    have h2 := hmax .sell (by simp)
    have h3 := hmax .hold (by simp)
    simp only [resolve]
    rw [if_neg (fun hc => absurd hc.2.2 (not_lt.mpr (le_of_lt h1))),
      if_neg (fun hc => absurd hc.2.2 (not_lt.mpr (le_of_lt h2))),
      if_pos ⟨h1, h2, h3⟩, if_pos hthr]

theorem strict_max_of_resolve_eq (msgs : List AgentDebateMessage) (t : ℚ)
    (s : Signal) (hs : s ≠ Signal.hold) (h : resolve msgs t = s) :
    (∀ u, u ≠ s → voteWeight msgs u < voteWeight msgs s) ∧
      t * totalPossibleWeight msgs < voteWeight msgs s := by
  simp only [resolve] at h
  split_ifs at h with h1 h2 h3 h4 h5 h6 <;>
    first
      | exact absurd h.symm hs
      | (subst h
         exact ⟨fun u hu => by
            rcases h1 with ⟨ha, hb, hc⟩
            cases u <;> simp_all, by assumption⟩)
      | (subst h
         exact ⟨fun u hu => by
            rcases h3 with ⟨ha, hb, hc⟩
            cases u <;> simp_all, by assumption⟩)
      | (subst h
         exact ⟨fun u hu => by
            rcases h5 with ⟨ha, hb, hc⟩
            cases u <;> simp_all, by assumption⟩)

/-- C2: the Consensus Resolver's resolve is a pure function of exactly the
message set and the threshold, and matches the reference algorithm: sum the
confidences of non-abstaining votes grouped by signal type; the decision is
the signal type with the strictly highest sum provided that sum exceeds the
threshold fraction of the total possible weight, otherwise hold; an exact tie
resolves to hold — in particular buy(0.4), sell(0.4), hold(0.2) with
threshold 0.5 resolves to hold. -/
theorem consensus_resolve_characterization :
    (∀ msgs t s, s ≠ Signal.hold →
      (resolve msgs t = s ↔
        ((∀ u, u ≠ s → voteWeight msgs u < voteWeight msgs s) ∧
          t * totalPossibleWeight msgs < voteWeight msgs s))) ∧
    (∀ msgs1 msgs2 t1 t2, msgs1 = msgs2 → t1 = t2 →
      resolve msgs1 t1 = resolve msgs2 t2) ∧
    resolve tieScenario (mkRat 1 2) = Signal.hold := by
  refine ⟨fun msgs t s hs => ⟨fun h => strict_max_of_resolve_eq msgs t s hs h,
    fun h => resolve_eq_of_strict_max msgs t s hs h.1 h.2⟩,
    fun msgs1 msgs2 t1 t2 h1 h2 => by rw [h1, h2], ?_⟩
  norm_num +decide [resolve, voteWeight, votesOf, totalPossibleWeight, tieScenario]

/-- Witness for C2: the characterization applied to the concrete two-buyer
scenario decides buy. -/
theorem consensus_resolve_characterization_witness :
    resolve buyScenario (mkRat 1 2) = Signal.buy := by
  refine (consensus_resolve_characterization.1 buyScenario (mkRat 1 2)
    Signal.buy (by decide)).mpr ⟨?_, ?_⟩
  · intro u hu
    cases u <;>
      first
        | exact absurd rfl hu
        | norm_num +decide [voteWeight, votesOf, buyScenario]
  · norm_num +decide [voteWeight, votesOf, totalPossibleWeight, buyScenario]

/-! ## Agent Debate Collector: abstention handling -/

/-- Modelled from the spec: the outcome of one bounded agent invocation —
either a structured answer, or a timeout, or an error. -/
inductive AgentOutcome
  | answered (signal : Signal) (confidence : ℚ)
  | timedOut
  | errored
deriving DecidableEq

/-- An outcome that yields no vote. -/
def isAbstention : AgentOutcome → Bool
  | .answered _ _ => false
  | .timedOut => true
  | .errored => true

/-- Modelled from the spec: a timed-out or erroring agent contributes no vote
(not a default hold) and is recorded as abstained; an answering agent is
recorded with its signal and confidence. -/
def collectMsg (agent symbol : Nat) : AgentOutcome → AgentDebateMessage
  | .answered s c => ⟨agent, symbol, s, c, false⟩
  | .timedOut => ⟨agent, symbol, .hold, 0, true⟩
  | .errored => ⟨agent, symbol, .hold, 0, true⟩

/-- Modelled from the spec: collect persists one message per configured agent,
abstentions recorded distinctly. -/
def collect (symbol : Nat) (outcomes : List (Nat × AgentOutcome)) :
    List AgentDebateMessage :=
  outcomes.map (fun p => collectMsg p.1 symbol p.2)

/-- The spec scenario: three configured agents, the first times out, the other
two vote buy(0.6) and buy(0.5). -/
def abstentionScenario : List AgentDebateMessage :=
  collect 0 [(0, .timedOut), (1, .answered .buy (mkRat 3 5)),
    (2, .answered .buy (mkRat 1 2))]

theorem totalPossibleWeight_collect (sym : Nat) (outs : List (Nat × AgentOutcome)) :
    totalPossibleWeight (collect sym outs) =
      ((outs.filter (fun p => !isAbstention p.2)).length : ℚ) := by
  induction outs with
  | nil => simp [collect, totalPossibleWeight, votesOf]
  | cons p rest ih =>
    obtain ⟨a, o⟩ := p
    cases o <;>
      simp_all [collect, totalPossibleWeight, votesOf, collectMsg, isAbstention,
        List.filter_cons]

theorem voteWeight_collect_abstention (sym a : Nat) (o : AgentOutcome)
    (pre post : List (Nat × AgentOutcome)) (ho : isAbstention o = true) :
    ∀ s, voteWeight (collect sym (pre ++ (a, o) :: post)) s =
      voteWeight (collect sym (pre ++ post)) s := by
  intro s
  cases o with
  | answered s0 c0 => simp [isAbstention] at ho
  | timedOut =>
    simp [collect, voteWeight, votesOf, collectMsg, List.filter_append]
  | errored =>
    simp [collect, voteWeight, votesOf, collectMsg, List.filter_append]

/-- C4: an agent that times out or errors contributes no vote to consensus,
is recorded as abstained, and abstaining agents are excluded from the
vote-weight denominator: with 3 configured agents where one abstains and the
other two vote buy(0.6) and buy(0.5), consensus is buy with vote weight 1.1
over a denominator of 2, not 3. -/
theorem abstention_excluded_from_consensus :
    (∀ sym a o pre post, isAbstention o = true →
      (∀ s, voteWeight (collect sym (pre ++ (a, o) :: post)) s =
        voteWeight (collect sym (pre ++ post)) s) ∧
      totalPossibleWeight (collect sym (pre ++ (a, o) :: post)) =
        totalPossibleWeight (collect sym (pre ++ post)) ∧
      (collectMsg a sym o).abstained = true) ∧
    (∀ sym outs, totalPossibleWeight (collect sym outs) =
      ((outs.filter (fun p => !isAbstention p.2)).length : ℚ)) ∧
    (abstentionScenario.length = 3 ∧
      abstentionScenario.map (fun m => m.abstained) = [true, false, false] ∧
      voteWeight abstentionScenario .buy = mkRat 11 10 ∧
      totalPossibleWeight abstentionScenario = 2 ∧
      resolve abstentionScenario (mkRat 1 2) = .buy) := by
  refine ⟨fun sym a o pre post ho =>
    ⟨voteWeight_collect_abstention sym a o pre post ho, ?_, ?_⟩,
    totalPossibleWeight_collect, ?_, ?_, ?_, ?_, ?_⟩
  · rw [totalPossibleWeight_collect, totalPossibleWeight_collect]
    simp [List.filter_append, List.filter_cons, ho]
  · cases o <;> simp_all [collectMsg, isAbstention]
  · simp [abstentionScenario, collect]
  · simp [abstentionScenario, collect, collectMsg]
  · norm_num +decide [abstentionScenario, collect, collectMsg, voteWeight, votesOf]
  · norm_num +decide [abstentionScenario, collect, collectMsg,
      totalPossibleWeight, votesOf]
  · norm_num +decide [abstentionScenario, collect, collectMsg, resolve,
      voteWeight, votesOf, totalPossibleWeight]

/-- Witness for C4: the abstention exclusion applied to a single timed-out
agent. -/
theorem abstention_excluded_from_consensus_witness :
    voteWeight (collect 0 [(5, .timedOut)]) .buy = voteWeight (collect 0 []) .buy ∧
      (collectMsg 5 0 .timedOut).abstained = true := by
  have h := abstention_excluded_from_consensus.1 0 5 .timedOut [] [] rfl
  exact ⟨h.1 .buy, h.2.2⟩

/-! ## Portfolio Ledger -/

/-- Order side. -/
inductive Side
  | buy
  | sell
deriving DecidableEq

/-- MarketOrder status (open | closed | failed); `open` is a Lean keyword so
the open state is written `open_`. -/
inductive OrderStatus
  | open_
  | closed
  | failed
deriving DecidableEq

/-- Modelled from the spec: a MarketOrder as seen by the ledger — symbol,
side, status, quantity, notional (quantity times fill price) and fees. -/
structure MarketOrder where
  symbol : Nat
  side : Side
  status : OrderStatus
  qty : ℚ
  notional : ℚ
  fee : ℚ
deriving DecidableEq

/-- Modelled from the spec: a PortfolioHolding — symbol, quantity and total
cost basis (quantity times average cost). -/
structure Holding where
  symbol : Nat
  qty : ℚ
  cost : ℚ
deriving DecidableEq

/-- Modelled from the spec: the per-council ledger state — available cash,
current capital and open holdings. -/
structure Ledger where
  availableCapital : ℚ
  currentCapital : ℚ
  holdings : List Holding
deriving DecidableEq

/-- Buy: merge the notional into the holding for the symbol (weighted-average
cost basis), or open a new holding. -/
def addLot (sym : Nat) (q n : ℚ) : List Holding → List Holding
  | [] => [⟨sym, q, n⟩]
  | h :: rest =>
    if h.symbol = sym then ⟨sym, h.qty + q, h.cost + n⟩ :: rest
    else h :: addLot sym q n rest

/-- Total cost basis currently held for a symbol. -/
def costOf (sym : Nat) (hs : List Holding) : ℚ :=
  ((hs.filter (fun h => h.symbol = sym)).map (fun h => h.cost)).sum

/-- Sell/close: the holding for the symbol is removed. -/
def removeLot (sym : Nat) (hs : List Holding) : List Holding :=
  hs.filter (fun h => h.symbol ≠ sym)

/-- Modelled from the spec: apply_fill updates holdings and cash for a filled
order; a buy decrements available cash by notional plus fees and adds to the
holding, a sell removes the holding, credits the proceeds and realizes PnL; a
failed order has zero effect. -/
def apply_fill (led : Ledger) (o : MarketOrder) : Ledger :=
  if o.status = .failed then led
  else
    match o.side with
    | .buy =>
      { availableCapital := led.availableCapital - o.notional - o.fee
        currentCapital := led.currentCapital - o.fee
        holdings := addLot o.symbol o.qty o.notional led.holdings }
    | .sell =>
      { availableCapital := led.availableCapital + o.notional - o.fee
        currentCapital :=
          led.currentCapital + (o.notional - costOf o.symbol led.holdings) - o.fee
        holdings := removeLot o.symbol led.holdings }

/-- Sum of holding costs. -/
def holdingCosts (led : Ledger) : ℚ :=
  (led.holdings.map (fun h => h.cost)).sum

/-- The ledger reconciliation equation: available cash plus the sum of holding
costs equals current capital. -/
def Balanced (led : Ledger) : Prop :=
  led.availableCapital + holdingCosts led = led.currentCapital

theorem costs_addLot (sym : Nat) (q n : ℚ) (hs : List Holding) :
    ((addLot sym q n hs).map (fun h => h.cost)).sum =
      (hs.map (fun h => h.cost)).sum + n := by
  induction hs with
  | nil => simp [addLot]
  | cons h rest ih =>
    by_cases hsym : h.symbol = sym
    · simp [addLot, hsym]
      ring
    · simp [addLot, hsym, ih]
      ring

theorem costs_removeLot (sym : Nat) (hs : List Holding) :
    ((removeLot sym hs).map (fun h => h.cost)).sum =
      (hs.map (fun h => h.cost)).sum - costOf sym hs := by
  induction hs with
  | nil => simp [removeLot, costOf]
  | cons h rest ih =>
    by_cases hsym : h.symbol = sym
    · simp [removeLot, costOf, List.filter_cons, hsym] at ih ⊢
      linarith
    · simp [removeLot, costOf, List.filter_cons, hsym] at ih ⊢
      linarith

theorem balanced_apply_fill (led : Ledger) (o : MarketOrder)
    (hb : Balanced led) : Balanced (apply_fill led o) := by
  by_cases hf : o.status = .failed
  · simpa [apply_fill, hf] using hb
  · cases hside : o.side
    · simp only [apply_fill, hf, if_false, hside, Balanced, holdingCosts,
        costs_addLot] at hb ⊢
      linarith
    · simp only [apply_fill, hf, if_false, hside, Balanced, holdingCosts,
        costs_removeLot] at hb ⊢
      linarith

theorem balanced_foldl_apply_fill (fills : List MarketOrder) (led : Ledger)
    (hb : Balanced led) : Balanced (fills.foldl apply_fill led) := by
  induction fills generalizing led with
  | nil => exact hb
  | cons o rest ih => exact ih (apply_fill led o) (balanced_apply_fill led o hb)

/-- C3: for every sequence of fills mixing buys, sells and failed orders,
after every apply_fill the equation available_capital + sum of holding costs =
current_capital holds (hence within any nonnegative epsilon), and a failed
MarketOrder contributes exactly zero change to holdings and capital. -/
theorem ledger_conservation :
    (∀ (led : Ledger) (o : MarketOrder), o.status = OrderStatus.failed →
      apply_fill led o = led) ∧
    (∀ (led : Ledger) (o : MarketOrder), Balanced led →
      Balanced (apply_fill led o)) ∧
    (∀ (fills : List MarketOrder) (led : Ledger), Balanced led →
      Balanced (fills.foldl apply_fill led)) ∧
    (∀ (fills : List MarketOrder) (led : Ledger) (eps : ℚ), Balanced led → 0 ≤ eps →
      |(fills.foldl apply_fill led).availableCapital +
          holdingCosts (fills.foldl apply_fill led) -
          (fills.foldl apply_fill led).currentCapital| ≤ eps) := by
  refine ⟨fun led o ho => by simp [apply_fill, ho],
    balanced_apply_fill,
    fun fills led hb => balanced_foldl_apply_fill fills led hb,
    fun fills led eps hb heps => ?_⟩
  have h := balanced_foldl_apply_fill fills led hb
  rw [Balanced] at h
  rw [h]
  simpa using heps

/-- Witness for C3: conservation holds after a concrete buy, sell and failed
order starting from a balanced empty ledger. -/
theorem ledger_conservation_witness :
    Balanced (List.foldl apply_fill ⟨1000, 1000, []⟩
      [⟨7, Side.buy, OrderStatus.open_, 2, 300, 1⟩,
        ⟨7, Side.sell, OrderStatus.closed, 2, 350, 1⟩,
        ⟨8, Side.buy, OrderStatus.failed, 1, 500, 1⟩]) :=
  ledger_conservation.2.2.1
    [⟨7, Side.buy, OrderStatus.open_, 2, 300, 1⟩,
      ⟨7, Side.sell, OrderStatus.closed, 2, 350, 1⟩,
      ⟨8, Side.buy, OrderStatus.failed, 1, 500, 1⟩]
    ⟨1000, 1000, []⟩ (by simp [Balanced, holdingCosts])

/-! ## Trade Executor -/

/-- Exchange Gateway response to one place_order call. -/
inductive GwResp
  | filled
  | rateLimited
  | authFailed
deriving DecidableEq

/-- The observable outcome of one order submission: final order status, how
many calls reached the Exchange Gateway, the backoff delays waited (seconds),
and how many positions were opened. -/
structure ExecOutcome where
  status : OrderStatus
  gatewayCalls : Nat
  backoffs : List Nat
  positionsOpened : Nat
deriving DecidableEq

/-- Modelled from the spec: bounded retry count for rate-limit errors. -/
def maxAttempts : Nat := 3

/-- Modelled from the spec: exponential backoff schedule 60s, 120s, 240s. -/
def backoffDelay (k : Nat) : Nat := 60 * 2 ^ k

/-- Modelled from the spec: the submission loop consumes one scripted gateway
response per attempt; a fill opens the position and stops, an authentication
error fails immediately with no retry, a rate limit waits the exponential
backoff and retries while attempts remain, after which the order is marked
failed. -/
def submitLoop : List GwResp → Nat → ExecOutcome
  | [], _ => ⟨.failed, 0, [], 0⟩
  | r :: rest, k =>
    match r with
    | .filled => ⟨.open_, 1, [], 1⟩
    | .authFailed => ⟨.failed, 1, [], 0⟩
    | .rateLimited =>
      if k + 1 < maxAttempts then
        let o := submitLoop rest (k + 1)
        ⟨o.status, o.gatewayCalls + 1, backoffDelay k :: o.backoffs,
          o.positionsOpened⟩
      else ⟨.failed, 1, [backoffDelay k], 0⟩

/-- Modelled from the spec: execute sizes the order against the council's
available balance; if the notional exceeds the balance the order is rejected
before submission (zero gateway calls), otherwise it enters the retry loop. -/
def execute (available notional : ℚ) (script : List GwResp) : ExecOutcome :=
  if available < notional then ⟨.failed, 0, [], 0⟩
  else submitLoop script 0

theorem submitLoop_calls_le (script : List GwResp) :
    ∀ k, k < maxAttempts →
      (submitLoop script k).gatewayCalls ≤ maxAttempts - k := by
  induction script with
  | nil => intro k _; simp [submitLoop]
  | cons r rest ih =>
    intro k hk
    cases r with
    | filled => simp only [submitLoop]; omega
    | authFailed => simp only [submitLoop]; omega
    | rateLimited =>
      simp only [submitLoop]
      split
      · have := ih (k + 1) (by omega)
        simp only []
        omega
      · simp only []
        omega

theorem submitLoop_positions_le (script : List GwResp) :
    ∀ k, (submitLoop script k).positionsOpened ≤ 1 := by
  induction script with
  | nil => intro k; simp [submitLoop]
  | cons r rest ih =>
    intro k
    cases r with
    | filled => simp [submitLoop]
    | authFailed => simp [submitLoop]
    | rateLimited =>
      simp only [submitLoop]
      split
      · exact ih (k + 1)
      · simp

/-- C5: order submission is idempotent from the caller's perspective — a
submission never opens more than one position, and a submission that is
rate-limited on the first two attempts and succeeds on the third opens exactly
one position, never two or three. -/
theorem order_submission_idempotent :
    (∀ (available notional : ℚ) (script : List GwResp),
      (execute available notional script).positionsOpened ≤ 1) ∧
    execute 1000 500 [GwResp.rateLimited, GwResp.rateLimited, GwResp.filled] =
      ⟨OrderStatus.open_, 3, [60, 120], 1⟩ := by
  constructor
  · intro available notional script
    rw [execute]
    split
    · simp
    · exact submitLoop_positions_le script 0
  · rw [execute, if_neg (by norm_num)]
    decide

/-- C6: an order whose notional exceeds the available balance is rejected by
the Trade Executor before submission, with zero calls made to the Exchange
Gateway. -/
theorem insufficient_balance_rejected_pre_submission
    (available notional : ℚ) (script : List GwResp)
    (h : available < notional) :
    (execute available notional script).status = OrderStatus.failed ∧
      (execute available notional script).gatewayCalls = 0 := by
  rw [execute, if_pos h]
  exact ⟨rfl, rfl⟩

/-- Witness for C6: a council with 100 available sizing a 500-notional order
is rejected with zero gateway calls, even though the gateway would fill. -/
theorem insufficient_balance_rejected_pre_submission_witness :
    (execute 100 500 [GwResp.filled]).status = OrderStatus.failed ∧
      (execute 100 500 [GwResp.filled]).gatewayCalls = 0 :=
  insufficient_balance_rejected_pre_submission 100 500 [GwResp.filled]
    (by norm_num)

/-- C7: rate-limit errors are retried with the exponential backoff schedule
60s, 120s, 240s for a bounded total of 3 attempts before the order is marked
failed, while an authentication error fails immediately with exactly one
gateway call and no retry. -/
theorem rate_limit_retry_and_auth_fail_fast :
    (∀ script : List GwResp, (submitLoop script 0).gatewayCalls ≤ maxAttempts) ∧
    submitLoop [GwResp.rateLimited, GwResp.rateLimited, GwResp.rateLimited] 0 =
      ⟨OrderStatus.failed, 3, [60, 120, 240], 0⟩ ∧
    (∀ rest : List GwResp,
      submitLoop (GwResp.authFailed :: rest) 0 =
        ⟨OrderStatus.failed, 1, [], 0⟩) ∧
    (∀ k, backoffDelay (k + 1) = 2 * backoffDelay k) ∧
    (backoffDelay 0 = 60 ∧ backoffDelay 1 = 120 ∧ backoffDelay 2 = 240) := by
  refine ⟨fun script => by simpa using submitLoop_calls_le script 0 (by decide),
    by decide, fun rest => by simp [submitLoop], fun k => ?_, by decide⟩
  simp [backoffDelay, pow_succ]
  ring

/-! ## Cycle Coordinator: per-symbol isolation and sealed outcome -/

/-- Aggregate outcome of a CouncilRun (success | partial | failed); `partial`
is a Lean keyword so the partial state is written `partialResult`. -/
inductive Outcome
  | success
  | partialResult
  | failed
deriving DecidableEq

/-- Whether one symbol's processing result is a failure. -/
def isFailure : Except Nat Nat → Bool
  | .error _ => true
  | .ok _ => false

/-- Modelled from the spec: each symbol is processed independently; a failing
symbol is caught and recorded and does not abort the remaining symbols. -/
def processAll (proc : Nat → Except Nat Nat) : List Nat → List (Nat × Except Nat Nat)
  | [] => []
  | s :: rest => (s, proc s) :: processAll proc rest

/-- Modelled from the spec: the CouncilRun is sealed with outcome failed if
every symbol failed, partial if some failed, else success. -/
def sealOutcome (results : List (Nat × Except Nat Nat)) : Outcome :=
  if results.all (fun r => isFailure r.2) then .failed
  else if results.any (fun r => isFailure r.2) then .partialResult
  else .success

/-- Modelled from the spec: run_cycle processes every symbol and seals the
run with the aggregate outcome. -/
def run_cycle (proc : Nat → Except Nat Nat) (symbols : List Nat) :
    Outcome × List (Nat × Except Nat Nat) :=
  let results := processAll proc symbols
  (sealOutcome results, results)

theorem processAll_eq_map (proc : Nat → Except Nat Nat) (symbols : List Nat) :
    processAll proc symbols = symbols.map (fun s => (s, proc s)) := by
  induction symbols with
  | nil => rfl
  | cons s rest ih => simp [processAll, ih]

theorem sealOutcome_eq_failed_iff (rs : List (Nat × Except Nat Nat)) :
    sealOutcome rs = Outcome.failed ↔ ∀ r ∈ rs, isFailure r.2 = true := by
  simp only [sealOutcome]
  split
  · rename_i hall
    simp only [List.all_eq_true] at hall
    exact iff_of_true rfl hall
  · rename_i hall
    simp only [List.all_eq_true] at hall
    split
    · exact iff_of_false (by simp) hall
    · exact iff_of_false (by simp) hall

theorem sealOutcome_eq_partial_iff (rs : List (Nat × Except Nat Nat)) :
    sealOutcome rs = Outcome.partialResult ↔
      ((∃ r ∈ rs, isFailure r.2 = true) ∧ ∃ r ∈ rs, isFailure r.2 = false) := by
  simp only [sealOutcome]
  split
  · rename_i hall
    simp only [List.all_eq_true] at hall
    refine iff_of_false (by simp) ?_
    rintro ⟨-, r, hr, hf⟩
    simp [hall r hr] at hf
  · rename_i hall
    simp only [List.all_eq_true] at hall
    push_neg at hall
    split
    · rename_i hany
      simp only [List.any_eq_true] at hany
      obtain ⟨r, hr, hf⟩ := hall
      exact iff_of_true rfl ⟨hany, r, hr, by simpa using hf⟩
    · rename_i hany
      simp only [List.any_eq_true] at hany
      push_neg at hany
      refine iff_of_false (by simp) ?_
      rintro ⟨⟨r, hr, hf⟩, -⟩
      exact hany r hr hf

theorem sealOutcome_eq_success_iff (rs : List (Nat × Except Nat Nat)) :
    sealOutcome rs = Outcome.success ↔
      ((∀ r ∈ rs, isFailure r.2 = false) ∧ ¬ ∀ r ∈ rs, isFailure r.2 = true) := by
  simp only [sealOutcome]
  split
  · rename_i hall
    simp only [List.all_eq_true] at hall
    exact iff_of_false (by simp) (fun h => h.2 hall)
  · rename_i hall
    simp only [List.all_eq_true] at hall
    split
    · rename_i hany
      simp only [List.any_eq_true] at hany
      obtain ⟨r, hr, hf⟩ := hany
      exact iff_of_false (by simp) (fun h => by simp [h.1 r hr] at hf)
    · rename_i hany
      simp only [List.any_eq_true] at hany
      push_neg at hany
      refine iff_of_true rfl ⟨fun r hr => ?_, hall⟩
      simpa using hany r hr

/-- C8: a failing symbol does not prevent the remaining symbols from being
processed (every symbol of the cycle is processed, and each symbol's result
depends only on that symbol), and the sealed outcome is failed iff every
symbol failed, partial iff some but not all failed, and success otherwise. -/
theorem cycle_isolation_and_outcome (proc : Nat → Except Nat Nat)
    (symbols : List Nat) :
    (processAll proc symbols).length = symbols.length ∧
    processAll proc symbols = symbols.map (fun s => (s, proc s)) ∧
    ((run_cycle proc symbols).1 = Outcome.failed ↔
      ∀ r ∈ processAll proc symbols, isFailure r.2 = true) ∧
    ((run_cycle proc symbols).1 = Outcome.partialResult ↔
      ((∃ r ∈ processAll proc symbols, isFailure r.2 = true) ∧
        ∃ r ∈ processAll proc symbols, isFailure r.2 = false)) ∧
    ((run_cycle proc symbols).1 = Outcome.success ↔
      ((∀ r ∈ processAll proc symbols, isFailure r.2 = false) ∧
        ¬ ∀ r ∈ processAll proc symbols, isFailure r.2 = true)) :=
  ⟨by rw [processAll_eq_map]; simp, processAll_eq_map proc symbols,
    sealOutcome_eq_failed_iff (processAll proc symbols),
    sealOutcome_eq_partial_iff (processAll proc symbols),
    sealOutcome_eq_success_iff (processAll proc symbols)⟩


/-! ## Per-council lock: at most one CouncilRun in progress -/

/-- A CouncilRun record: which council it belongs to and whether it is still
in progress (not yet sealed). -/
structure CouncilRunRec where
  council : Nat
  inProgress : Bool
deriving DecidableEq

/-- Modelled from the spec: the orchestrator state — the set of councils whose
per-council lock is held, the CouncilRun records created so far, and the count
of logged skips. -/
structure OrchState where
  locks : List Nat
  runs : List CouncilRunRec
  skips : Nat
deriving DecidableEq

/-- The daemon's initial state: no locks, no runs, no skips. -/
def initState : OrchState := ⟨[], [], 0⟩

/-- Modelled from the spec: a fire attempt for a council acquires the
per-council lock and opens a CouncilRun; if the lock is already held the fire
is skipped with a logged skip — dropped, not queued. -/
def fire (st : OrchState) (c : Nat) : OrchState :=
  if c ∈ st.locks then { st with skips := st.skips + 1 }
  else ⟨c :: st.locks, ⟨c, true⟩ :: st.runs, st.skips⟩

/-- Modelled from the spec: finishing a cycle seals the council's in-progress
run and releases the per-council lock. -/
def finishRun (st : OrchState) (c : Nat) : OrchState :=
  ⟨st.locks.erase c,
    st.runs.map (fun r => if r.council = c then ⟨r.council, false⟩ else r),
    st.skips⟩

/-- States reachable from the initial daemon state by fire attempts and cycle
completions. -/
inductive Reachable : OrchState → Prop
  | init : Reachable initState
  | fire (st : OrchState) (c : Nat) : Reachable st → Reachable (fire st c)
  | finish (st : OrchState) (c : Nat) : Reachable st → Reachable (finishRun st c)

/-- Number of in-progress CouncilRun records for a council. -/
def inProgressCount (st : OrchState) (c : Nat) : Nat :=
  (st.runs.filter (fun r => r.council = c ∧ r.inProgress = true)).length

/-- Number of CouncilRun records for a council. -/
def runCount (st : OrchState) (c : Nat) : Nat :=
  (st.runs.filter (fun r => r.council = c)).length

/-- The lock invariant: locks are distinct and each council has exactly one
in-progress run when its lock is held and none otherwise. -/
def LockInv (st : OrchState) : Prop :=
  st.locks.Nodup ∧
    ∀ c, inProgressCount st c = if c ∈ st.locks then 1 else 0

theorem fire_mem_eq (st : OrchState) (c : Nat) (h : c ∈ st.locks) :
    fire st c = { st with skips := st.skips + 1 } := by
  simp [fire, h]

theorem fire_not_mem_eq (st : OrchState) (c : Nat) (h : c ∉ st.locks) :
    fire st c = ⟨c :: st.locks, ⟨c, true⟩ :: st.runs, st.skips⟩ := by
  simp [fire, h]

theorem lockInv_init : LockInv initState := by
  constructor
  · simp [initState]
  · intro c
    simp [initState, inProgressCount]

theorem lockInv_fire (st : OrchState) (c : Nat) (h : LockInv st) :
    LockInv (fire st c) := by
  obtain ⟨hnd, hcount⟩ := h
  by_cases hc : c ∈ st.locks
  · rw [fire_mem_eq st c hc]
    exact ⟨hnd, hcount⟩
  · rw [fire_not_mem_eq st c hc]
    refine ⟨by simp [List.nodup_cons, hc, hnd], fun c0 => ?_⟩
    by_cases h0 : c0 = c
    · subst h0
      have heq : inProgressCount ⟨c0 :: st.locks, ⟨c0, true⟩ :: st.runs, st.skips⟩ c0 =
          inProgressCount st c0 + 1 := by
        simp [inProgressCount, List.filter_cons]
      rw [heq, hcount c0, if_neg hc, if_pos (List.mem_cons_self c0 st.locks)]
    · have h0c : ¬ c = c0 := fun hh => h0 hh.symm
      have heq : inProgressCount ⟨c :: st.locks, ⟨c, true⟩ :: st.runs, st.skips⟩ c0 =
          inProgressCount st c0 := by
        simp [inProgressCount, List.filter_cons, h0c]
      rw [heq, hcount c0]
      have hmemiff : (c0 ∈ c :: st.locks) ↔ (c0 ∈ st.locks) := by
        simp [List.mem_cons, h0]
      simp only [hmemiff]

theorem filter_finish_self (c : Nat) (rs : List CouncilRunRec) :
    (List.filter (fun r => r.council = c ∧ r.inProgress = true)
      (rs.map (fun r => if r.council = c then ⟨r.council, false⟩ else r))) = [] := by
  induction rs with
  | nil => rfl
  | cons r rest ih =>
    by_cases hr : r.council = c
    · simpa [List.filter_cons, hr] using ih
    · simpa [List.filter_cons, hr] using ih

theorem filter_finish_other (c c0 : Nat) (h0 : c0 ≠ c) (rs : List CouncilRunRec) :
    (List.filter (fun r => r.council = c0 ∧ r.inProgress = true)
        (rs.map (fun r => if r.council = c then ⟨r.council, false⟩ else r))).length =
      (List.filter (fun r => r.council = c0 ∧ r.inProgress = true) rs).length := by
  induction rs with
  | nil => rfl
  | cons r rest ih =>
    by_cases hr : r.council = c
    · have hr0 : ¬ r.council = c0 := by rw [hr]; exact fun hh => h0 hh.symm
      have hcc : ¬ c = c0 := fun hh => h0 hh.symm
      simpa [List.filter_cons, hr, hr0, hcc] using ih
    · simp only [List.map_cons, if_neg hr, List.filter_cons]
      split
      · simpa using ih
      · exact ih

theorem lockInv_finish (st : OrchState) (c : Nat) (h : LockInv st) :
    LockInv (finishRun st c) := by
  obtain ⟨hnd, hcount⟩ := h
  refine ⟨by simpa [finishRun] using hnd.erase c, fun c0 => ?_⟩
  by_cases h0 : c0 = c
  · subst h0
    have hz : inProgressCount (finishRun st c0) c0 = 0 := by
      simp only [inProgressCount, finishRun]
      rw [filter_finish_self]
      rfl
    have hmem : c0 ∉ (finishRun st c0).locks := by
      simp only [finishRun]
      exact hnd.not_mem_erase
    rw [hz, if_neg hmem]
  · have heq : inProgressCount (finishRun st c) c0 = inProgressCount st c0 := by
      simp only [inProgressCount, finishRun]
      exact filter_finish_other c c0 h0 st.runs
    rw [heq, hcount c0]
    have hiff : (c0 ∈ (finishRun st c).locks) ↔ (c0 ∈ st.locks) := by
      simp only [finishRun]
      exact List.mem_erase_of_ne h0
    simp only [hiff]

theorem lockInv_reachable (st : OrchState) (h : Reachable st) : LockInv st := by
  induction h with
  | init => exact lockInv_init
  | fire st c _ ih => exact lockInv_fire st c ih
  | finish st c _ ih => exact lockInv_finish st c ih

/-- C1: in every reachable orchestrator state at most one CouncilRun per
council is in progress, and when two fire attempts for the same council land
inside one execution window exactly one run record is created while the other
attempt is dropped with a logged skip — no second run record. -/
theorem at_most_one_run_in_progress :
    (∀ st, Reachable st → ∀ c, inProgressCount st c ≤ 1) ∧
    (∀ st c, Reachable st → c ∉ st.locks →
      runCount (fire (fire st c) c) c = runCount st c + 1 ∧
      (fire (fire st c) c).skips = st.skips + 1 ∧
      inProgressCount (fire (fire st c) c) c = 1) := by
  constructor
  · intro st h c
    rw [(lockInv_reachable st h).2 c]
    split <;> omega
  · intro st c h hc
    have hst1 : fire st c = ⟨c :: st.locks, ⟨c, true⟩ :: st.runs, st.skips⟩ :=
      fire_not_mem_eq st c hc
    have hmem : c ∈ (fire st c).locks := by
      rw [hst1]
      exact List.mem_cons_self c st.locks
    have hst2 : fire (fire st c) c = { fire st c with skips := (fire st c).skips + 1 } :=
      fire_mem_eq (fire st c) c hmem
    refine ⟨?_, ?_, ?_⟩
    · rw [hst2]
      show runCount (fire st c) c = runCount st c + 1
      rw [hst1]
      simp [runCount, List.filter_cons]
    · rw [hst2]
      show (fire st c).skips + 1 = st.skips + 1
      rw [hst1]
    · rw [hst2]
      show inProgressCount (fire st c) c = 1
      rw [(lockInv_fire st c (lockInv_reachable st h)).2 c, if_pos hmem]

/-- Witness for C1: from the initial daemon state, a double fire for council 0
yields one run record, one skip, and a single in-progress run. -/
theorem at_most_one_run_in_progress_witness :
    inProgressCount initState 0 ≤ 1 ∧
      runCount (fire (fire initState 0) 0) 0 = runCount initState 0 + 1 ∧
      (fire (fire initState 0) 0).skips = initState.skips + 1 ∧
      inProgressCount (fire (fire initState 0) 0) 0 = 1 :=
  ⟨at_most_one_run_in_progress.1 initState Reachable.init 0,
    at_most_one_run_in_progress.2 initState 0 Reachable.init (by simp [initState])⟩


/-! ## Daemon lifecycle scripts (PID file)

Embedded from scripts/test_orchestrator.sh (start guard) and
scripts/stop_orchestrator.sh.  The filesystem marker is the optional PID in
the file; process liveness is a boolean predicate on PIDs (the `ps -p`
check); `exitAfter` gives how many seconds after SIGTERM the process exits
(none if it ignores the signal). -/

/-- Result of a start attempt. -/
inductive StartResult
  | started
  | startedStaleCleared
  | refusedRunning
deriving DecidableEq

/-- What the stop script did: whether SIGTERM was sent, how long it waited,
whether SIGKILL was forced, and whether the PID file was removed. -/
structure StopReport where
  sentTerm : Bool
  waitedSeconds : Nat
  sentKill : Bool
  removedMarker : Bool
deriving DecidableEq

/-- The start guard of scripts/test_orchestrator.sh: if a PID file exists and
the recorded process is alive, refuse to start; if the file is stale (process
dead), remove it and start; otherwise start and write the new PID. -/
def startDaemon (alive : Nat → Bool) (pidFile : Option Nat) (newPid : Nat) :
    Option Nat × StartResult :=
  match pidFile with
  | some pid =>
    if alive pid then (some pid, .refusedRunning)
    else (some newPid, .startedStaleCleared)
  | none => (some newPid, .started)

/-- The stop sequence of scripts/stop_orchestrator.sh: with no PID file there
is nothing to stop; with a stale PID the file is removed; with a live PID the
script sends SIGTERM, polls once per second for up to 30 seconds, sends
SIGKILL if the process is still alive at 30 seconds, and removes the PID
file. -/
def stopDaemon (alive : Nat → Bool) (exitAfter : Option Nat)
    (pidFile : Option Nat) : Option Nat × StopReport :=
  match pidFile with
  | none => (none, ⟨false, 0, false, false⟩)
  | some pid =>
    if alive pid then
      match exitAfter with
      | some t =>
        if t < 30 then (none, ⟨true, t, false, true⟩)
        else (none, ⟨true, 30, true, true⟩)
      | none => (none, ⟨true, 30, true, true⟩)
    else (none, ⟨false, 0, false, true⟩)

/-- C9: the lifecycle-marker protocol — a PID marker is written on start; a
start while a marker exists refuses only when the recorded process is alive
and otherwise clears the stale marker and starts; stop sends SIGTERM, waits a
bounded grace period of at most 30 seconds, forces SIGKILL exactly when the
process has not exited within the grace period, and removes the marker. -/
theorem pid_lifecycle_protocol :
    (∀ (alive : Nat → Bool) (p : Nat),
      startDaemon alive none p = (some p, StartResult.started)) ∧
    (∀ (alive : Nat → Bool) (pid p : Nat), alive pid = true →
      startDaemon alive (some pid) p = (some pid, StartResult.refusedRunning)) ∧
    (∀ (alive : Nat → Bool) (pid p : Nat), alive pid = false →
      startDaemon alive (some pid) p = (some p, StartResult.startedStaleCleared)) ∧
    (∀ (alive : Nat → Bool) (exitAfter : Option Nat) (pid : Nat),
      alive pid = true →
      (stopDaemon alive exitAfter (some pid)).1 = none ∧
      (stopDaemon alive exitAfter (some pid)).2.sentTerm = true ∧
      (stopDaemon alive exitAfter (some pid)).2.waitedSeconds ≤ 30 ∧
      (stopDaemon alive exitAfter (some pid)).2.removedMarker = true ∧
      ((stopDaemon alive exitAfter (some pid)).2.sentKill = false ↔
        ∃ t, exitAfter = some t ∧ t < 30)) ∧
    (∀ (alive : Nat → Bool) (exitAfter : Option Nat) (pid : Nat),
      alive pid = false →
      stopDaemon alive exitAfter (some pid) = (none, ⟨false, 0, false, true⟩)) := by
  refine ⟨fun alive p => rfl,
    fun alive pid p h => by simp [startDaemon, h],
    fun alive pid p h => by simp [startDaemon, h],
    fun alive exitAfter pid h => ?_,
    fun alive exitAfter pid h => by simp [stopDaemon, h]⟩
  cases exitAfter with
  | none =>
    refine ⟨by simp [stopDaemon, h], by simp [stopDaemon, h],
      by simp [stopDaemon, h], by simp [stopDaemon, h], ?_⟩
    simp [stopDaemon, h]
  | some t =>
    by_cases ht : t < 30
    · refine ⟨by simp [stopDaemon, h, ht], by simp [stopDaemon, h, ht],
        by simp [stopDaemon, h, ht]; omega, by simp [stopDaemon, h, ht], ?_⟩
      simp only [stopDaemon, h, if_pos rfl]
      simp [ht]
    · refine ⟨by simp [stopDaemon, h, ht], by simp [stopDaemon, h, ht],
        by simp [stopDaemon, h, ht], by simp [stopDaemon, h, ht], ?_⟩
      simp only [stopDaemon, h, if_pos rfl]
      simp [ht]

/-- Witness for C9: a live process 7 that exits 3 seconds after SIGTERM —
start refuses while it runs, stop terminates gracefully and removes the
marker. -/
theorem pid_lifecycle_protocol_witness :
    startDaemon (fun p => p == 7) (some 7) 9 = (some 7, StartResult.refusedRunning) ∧
      (stopDaemon (fun p => p == 7) (some 3) (some 7)).1 = none ∧
      (stopDaemon (fun p => p == 7) (some 3) (some 7)).2.sentTerm = true ∧
      (stopDaemon (fun p => p == 7) (some 3) (some 7)).2.waitedSeconds ≤ 30 ∧
      (stopDaemon (fun p => p == 7) (some 3) (some 7)).2.removedMarker = true :=
  have h := pid_lifecycle_protocol.2.2.2.1 (fun p => p == 7) (some 3) 7 (by decide)
  ⟨pid_lifecycle_protocol.2.1 (fun p => p == 7) 7 9 (by decide),
    h.1, h.2.1, h.2.2.1, h.2.2.2.1⟩


/-! ## CouncilWebSocketProvider (src/unnamed/part_016)

The provider keeps a single socket reference `wsRef`; connect() skips when
the current socket is CONNECTING or OPEN; the onclose handler clears the
reference and schedules a reconnect when enabled; unmount cleanup disables
reconnect, closes the socket and clears the reference.  `socketsCreated`
counts WebSocket constructor calls and `liveSockets` tracks the ids of
sockets that have been created but not closed. -/

/-- WebSocket readyState. -/
inductive ReadyState
  | connecting
  | openState
  | closing
  | closed
deriving DecidableEq

/-- A socket: identity plus readyState. -/
structure Socket where
  id : Nat
  readyState : ReadyState
deriving DecidableEq

/-- State of the provider: the single socket reference, a counter of sockets
ever constructed, the auto-reconnect flag, whether a reconnect timer is
pending, and the ids of not-yet-closed sockets. -/
structure WSProviderState where
  wsRef : Option Socket
  socketsCreated : Nat
  shouldReconnect : Bool
  reconnectScheduled : Bool
  liveSockets : List Nat
deriving DecidableEq

/-- The state at provider mount, before the first connect(). -/
def wsInitState : WSProviderState := ⟨none, 0, true, false, []⟩

/-- Constructing a new WebSocket: a fresh id in CONNECTING state is stored in
wsRef and added to the live set. -/
def mkConnection (st : WSProviderState) : WSProviderState :=
  ⟨some ⟨st.socketsCreated, .connecting⟩, st.socketsCreated + 1,
    st.shouldReconnect, false, st.socketsCreated :: st.liveSockets⟩

/-- connect() from part_016: if the current socket is CONNECTING or OPEN the
call returns without creating a new WebSocket; otherwise a new socket is
constructed. -/
def connect (st : WSProviderState) : WSProviderState :=
  match st.wsRef with
  | some ws =>
    if ws.readyState = .connecting ∨ ws.readyState = .openState then st
    else mkConnection st
  | none => mkConnection st

/-- ws.onopen: the referenced socket transitions CONNECTING → OPEN. -/
def openEvent (st : WSProviderState) : WSProviderState :=
  match st.wsRef with
  | some ws =>
    if ws.readyState = .connecting then
      ⟨some ⟨ws.id, .openState⟩, st.socketsCreated, st.shouldReconnect,
        st.reconnectScheduled, st.liveSockets⟩
    else st
  | none => st

/-- ws.onclose from part_016: the socket is gone, the reference is cleared
(wsRef.current = null) before a reconnect is scheduled when enabled. -/
def handleClose (st : WSProviderState) : WSProviderState :=
  match st.wsRef with
  | some ws =>
    ⟨none, st.socketsCreated, st.shouldReconnect, st.shouldReconnect,
      st.liveSockets.erase ws.id⟩
  | none => st

/-- The 5-second reconnect timer firing: it calls connect() on the state left
by the close handler. -/
def reconnectFire (st : WSProviderState) : WSProviderState :=
  if st.reconnectScheduled then
    connect ⟨st.wsRef, st.socketsCreated, st.shouldReconnect, false,
      st.liveSockets⟩
  else st

/-- Unmount cleanup from part_016: disable reconnect, clear timers, close the
socket and null the reference. -/
def cleanup (st : WSProviderState) : WSProviderState :=
  match st.wsRef with
  | some ws => ⟨none, st.socketsCreated, false, false, st.liveSockets.erase ws.id⟩
  | none => ⟨none, st.socketsCreated, false, false, st.liveSockets⟩

/-- Provider states reachable from mount (which immediately connects). -/
inductive WSReachable : WSProviderState → Prop
  | init : WSReachable (connect wsInitState)
  | connectStep (st : WSProviderState) : WSReachable st → WSReachable (connect st)
  | openStep (st : WSProviderState) : WSReachable st → WSReachable (openEvent st)
  | closeStep (st : WSProviderState) : WSReachable st → WSReachable (handleClose st)
  | reconnectStep (st : WSProviderState) :
      WSReachable st → WSReachable (reconnectFire st)
  | cleanupStep (st : WSProviderState) : WSReachable st → WSReachable (cleanup st)

/-- The single-connection invariant: with no referenced socket the live set
is empty; a referenced socket is the only live one and is CONNECTING or
OPEN. -/
def WSInv (st : WSProviderState) : Prop :=
  (st.wsRef = none → st.liveSockets = []) ∧
    (∀ ws, st.wsRef = some ws → st.liveSockets = [ws.id] ∧
      (ws.readyState = ReadyState.connecting ∨ ws.readyState = ReadyState.openState))

theorem wsInv_mkConnection (st : WSProviderState) (h : st.liveSockets = []) :
    WSInv (mkConnection st) := by
  refine ⟨fun hnone => ?_, fun ws hws => ?_⟩
  · exact absurd hnone (by simp [mkConnection])
  · have hw : ws = ⟨st.socketsCreated, ReadyState.connecting⟩ := by
      simp only [mkConnection, Option.some.injEq] at hws
      exact hws.symm
    subst hw
    exact ⟨by simp [mkConnection, h], Or.inl rfl⟩

theorem wsInv_connect (st : WSProviderState) (h : WSInv st) :
    WSInv (connect st) := by
  cases hws : st.wsRef with
  | some ws =>
    have hprop := h.2 ws hws
    simp only [connect, hws]
    rw [if_pos hprop.2]
    exact h
  | none =>
    simp only [connect, hws]
    exact wsInv_mkConnection st (h.1 hws)

theorem wsInv_openEvent (st : WSProviderState) (h : WSInv st) :
    WSInv (openEvent st) := by
  cases hws : st.wsRef with
  | some ws =>
    simp only [openEvent, hws]
    by_cases hrs : ws.readyState = ReadyState.connecting
    · rw [if_pos hrs]
      have hprop := h.2 ws hws
      refine ⟨fun hnone => by simp at hnone, fun ws2 hws2 => ?_⟩
      have hw : ws2 = ⟨ws.id, ReadyState.openState⟩ := by
        simp only [Option.some.injEq] at hws2
        exact hws2.symm
      subst hw
      exact ⟨by simpa using hprop.1, Or.inr rfl⟩
    · rw [if_neg hrs]
      exact h
  | none =>
    simp only [openEvent, hws]
    exact h

theorem wsInv_handleClose (st : WSProviderState) (h : WSInv st) :
    WSInv (handleClose st) := by
  cases hws : st.wsRef with
  | some ws =>
    simp only [handleClose, hws]
    refine ⟨fun _ => ?_, fun ws2 hws2 => by simp at hws2⟩
    rw [(h.2 ws hws).1]
    simp
  | none =>
    simp only [handleClose, hws]
    exact h

theorem wsInv_reconnectFire (st : WSProviderState) (h : WSInv st) :
    WSInv (reconnectFire st) := by
  rw [reconnectFire]
  by_cases hr : st.reconnectScheduled = true
  · rw [if_pos hr]
    apply wsInv_connect
    refine ⟨fun hnone => h.1 (by simpa using hnone), fun ws hws => ?_⟩
    exact h.2 ws (by simpa using hws)
  · rw [if_neg hr]
    exact h

theorem wsInv_cleanup (st : WSProviderState) (h : WSInv st) :
    WSInv (cleanup st) := by
  cases hws : st.wsRef with
  | some ws =>
    simp only [cleanup, hws]
    refine ⟨fun _ => ?_, fun ws2 hws2 => by simp at hws2⟩
    rw [(h.2 ws hws).1]
    simp
  | none =>
    simp only [cleanup, hws]
    exact ⟨fun _ => h.1 hws, fun ws2 hws2 => by simp at hws2⟩

theorem wsInv_reachable (st : WSProviderState) (h : WSReachable st) : WSInv st := by
  induction h with
  | init =>
    refine wsInv_connect wsInitState ⟨fun _ => rfl, fun ws hws => ?_⟩
    simp [wsInitState] at hws
  | connectStep st _ ih => exact wsInv_connect st ih
  | openStep st _ ih => exact wsInv_openEvent st ih
  | closeStep st _ ih => exact wsInv_handleClose st ih
  | reconnectStep st _ ih => exact wsInv_reconnectFire st ih
  | cleanupStep st _ ih => exact wsInv_cleanup st ih

/-- C10: the provider holds at most one underlying WebSocket connection at
any time — a connect() while the current socket is CONNECTING or OPEN creates
no new WebSocket and leaves the state unchanged, the close handler clears the
socket reference before any reconnect runs, a connect from a cleared
reference is the one that constructs the new socket, and every reachable
state has at most one live socket. -/
theorem websocket_single_connection :
    (∀ (st : WSProviderState) (ws : Socket), st.wsRef = some ws →
      (ws.readyState = ReadyState.connecting ∨ ws.readyState = ReadyState.openState) →
      connect st = st) ∧
    (∀ st : WSProviderState, (handleClose st).wsRef = none) ∧
    (∀ st : WSProviderState, st.wsRef = none → connect st = mkConnection st) ∧
    (∀ st : WSProviderState, WSReachable st → st.liveSockets.length ≤ 1) := by
  refine ⟨fun st ws hws hrs => ?_, fun st => ?_, fun st hws => ?_, fun st h => ?_⟩
  · simp only [connect, hws]
    rw [if_pos hrs]
  · cases hws : st.wsRef with
    | some ws => simp only [handleClose, hws]
    | none => simp only [handleClose, hws]
  · simp only [connect, hws]
  · have hinv := wsInv_reachable st h
    cases hws : st.wsRef with
    | some ws =>
      rw [(hinv.2 ws hws).1]
      simp
    | none =>
      rw [hinv.1 hws]
      simp

/-- Witness for C10: a freshly opened socket makes connect() a no-op, closing
clears the reference, and the mounted initial state has one live socket. -/
theorem websocket_single_connection_witness :
    connect (openEvent (connect wsInitState)) = openEvent (connect wsInitState) ∧
      (handleClose (connect wsInitState)).wsRef = none ∧
      (connect wsInitState).liveSockets.length ≤ 1 :=
  ⟨websocket_single_connection.1 (openEvent (connect wsInitState))
      ⟨0, ReadyState.openState⟩ rfl (Or.inr rfl),
    websocket_single_connection.2.1 (connect wsInitState),
    websocket_single_connection.2.2.2 (connect wsInitState) WSReachable.init⟩


/-- Witness for C5: the rate-limited-then-filled submission opens at most one
position. -/
theorem order_submission_idempotent_witness :
    (execute 1000 500
      [GwResp.rateLimited, GwResp.rateLimited, GwResp.filled]).positionsOpened ≤ 1 :=
  order_submission_idempotent.1 1000 500
    [GwResp.rateLimited, GwResp.rateLimited, GwResp.filled]

/-- Witness for C7: a fully rate-limited submission makes at most
maxAttempts gateway calls. -/
theorem rate_limit_retry_and_auth_fail_fast_witness :
    (submitLoop [GwResp.rateLimited, GwResp.rateLimited, GwResp.rateLimited]
      0).gatewayCalls ≤ maxAttempts :=
  rate_limit_retry_and_auth_fail_fast.1
    [GwResp.rateLimited, GwResp.rateLimited, GwResp.rateLimited]

/-- Witness for C8: with symbol 0 failing and symbol 1 succeeding, both
symbols are still processed. -/
theorem cycle_isolation_and_outcome_witness :
    (processAll (fun s => if s = 0 then Except.error 0 else Except.ok s)
      [0, 1]).length = 2 :=
  (cycle_isolation_and_outcome
    (fun s => if s = 0 then Except.error 0 else Except.ok s) [0, 1]).1

end Pantheon
